import Mathlib

/-!
Verification of the libpool fixed-chunk pool allocator (`src/libpool.c`)
against its natural-language specification.

The C library hands out fixed-size chunks from one contiguous backing
array.  Free chunks form an intrusive singly-linked list: the first
`sizeof(void*)` bytes of a free chunk store the address of the next free
chunk (or `NULL`).  We embed this shallowly:

* an address is a pair `(block, byte offset)`, the `block` component
  standing for the base address returned by one `pool_ext_alloc` call
  (each `pool_resize` obtains a fresh block, modelled as `block + 1`);
* the contents of the current backing array are a `List Cell`, one cell
  per chunk slot; a cell records the first pointer-sized word (either a
  stored next pointer, opaque user bytes, or uninitialized bytes) plus
  the remaining `chunk_sz - sizeof(void*)` bytes, kept opaque;
* reads and writes of the in-band next pointers go through `memRead` /
  `memWrite`, which fail (`none`) on accesses the C source could not
  perform deterministically (out of the current block, misaligned, out
  of range, or reinterpreting non-pointer bytes) — every such failure is
  undefined behavior in the C source;
* functions that can encounter undefined behavior return `Option`, with
  `none` marking the undefined case.  In particular `pool_resize` reads
  the local variable `off_next` after its loop, and that variable is
  never initialized when the loop body runs zero times; the embedding
  threads `off_next` as an `Option Nat` that starts as `none`.
-/

namespace LibPool

/-- An address: `(block id of the backing allocation, byte offset)`.
The block id stands for the numeric base address of one allocation
returned by `pool_ext_alloc`; distinct allocations are disjoint, which
the pair encoding captures. -/
abbrev Addr := Nat × Nat

/-- The first pointer-sized bytes of a chunk, read through the union in
the hypothetical `struct Chunk`: either a stored next-free
pointer, bytes written by the user, or uninitialized bytes. -/
inductive Word where
  | next : Option Addr → Word
  | user : Nat → Word
  | uninit : Word
deriving DecidableEq, Repr

/-- One chunk slot of the backing array: the first pointer-sized word
plus the remaining `chunk_sz - sizeof(void*)` bytes, kept opaque. -/
structure Cell where
  word : Word
  rest : Nat
deriving DecidableEq, Repr

/-- Embedding of `struct Pool` from `libpool.c`, lines 50-55, together with the
contents of the backing array it points to.  `chunk_arr` is the block id
of the current backing allocation and `mem` its contents (one cell per
chunk actually present in that allocation). -/
structure Pool where
  free_chunk : Option Addr
  chunk_arr : Nat
  mem : List Cell
  pool_sz : Nat
  chunk_sz : Nat
deriving DecidableEq, Repr

/-- Value of `sizeof(void*)` on the 64-bit targets the library is built for. -/
def ptrSize : Nat := 8

/-- Read `*(void**)a` against backing block `blk` with contents `mem`.
Returns `none` when the read the C source performs would be undefined or
non-deterministic: wrong block, misaligned or out-of-range chunk slot,
or bytes that do not currently hold a stored next pointer. -/
def memRead (mem : List Cell) (csz blk : Nat) (a : Addr) : Option (Option Addr) :=
  if a.1 = blk ∧ a.2 % csz = 0 then
    match mem[a.2 / csz]? with
    | some c =>
      match c.word with
      | Word.next nxt => some nxt
      | _ => none
    | none => none
  else none

/-- Write `*(void**)a = w` against backing block `blk` with contents
`mem`.  Only the first pointer-sized bytes of the chunk slot change; the
`rest` bytes are preserved.  `none` when the write would be undefined
(wrong block, misaligned, or out of range). -/
def memWrite (mem : List Cell) (csz blk : Nat) (a : Addr) (w : Word) : Option (List Cell) :=
  if a.1 = blk ∧ a.2 % csz = 0 then
    match mem[a.2 / csz]? with
    | some c => some (mem.set (a.2 / csz) ⟨w, c.rest⟩)
    | none => none
  else none

/-- The linking loops of `pool_new` (lines 127-130) and `pool_resize`
(lines 211-214): cells `lo`, ..., `hi - 1` of block `blk` each store the
address of the following chunk, the cell `hi - 1` stores `NULL`.  The
`rest` bytes of these freshly allocated cells are uninitialized; the
embedding fixes them at `0` (no theorem observes them). -/
def linkChunks (blk lo hi csz : Nat) : List Cell :=
  (List.range (hi - lo)).map fun j =>
    ⟨Word.next (if lo + j + 1 < hi then some (blk, (lo + j + 1) * csz) else none), 0⟩

/-- Embedding of `pool_new` (lines 100-133).  `a1`, `a2` say whether the two
`pool_ext_alloc` calls (`Pool` struct, chunk array) succeed.  The fresh
backing array is block `0`.  `free_chunk` is set to the array base
(offset `0`) and the linking loop threads the free list through the
array. -/
def pool_new (a1 a2 : Bool) (pool_sz chunk_sz : Nat) : Option Pool :=
  if pool_sz = 0 ∨ chunk_sz < ptrSize then none
  else if a1 = false then none
  else if a2 = false then none
  else some
    { free_chunk := some (0, 0)
      chunk_arr := 0
      mem := linkChunks 0 0 pool_sz chunk_sz
      pool_sz := pool_sz
      chunk_sz := chunk_sz }

/-- Embedding of `pool_alloc` (lines 276-285).  A `NULL` pool or an empty free list
yields a `NULL` result (a defined outcome); otherwise the head chunk is
returned and the head advances to the next pointer stored in its first
bytes.  The outer `Option` is `none` only when reading that stored
pointer would be undefined. -/
def pool_alloc (pool : Option Pool) : Option (Option Addr × Option Pool) :=
  match pool with
  | none => some (none, none)
  | some p =>
    match p.free_chunk with
    | none => some (none, some p)
    | some a =>
      match memRead p.mem p.chunk_sz p.chunk_arr a with
      | none => none
      | some nxt => some (some a, some { p with free_chunk := nxt })

/-- Embedding of `pool_free` (lines 315-321).  A `NULL` pool or `NULL` pointer is a
no-op; otherwise the first pointer-sized bytes at `ptr` receive the
current free-list head and the head becomes `ptr`.  The outer `Option`
is `none` only when the store through `ptr` would be undefined. -/
def pool_free (pool : Option Pool) (ptr : Option Addr) : Option (Option Pool) :=
  match pool, ptr with
  | none, _ => some none
  | some p, none => some (some p)
  | some p, some a =>
    match memWrite p.mem p.chunk_sz p.chunk_arr a (Word.next p.free_chunk) with
    | none => none
    | some mem2 => some (some { p with mem := mem2, free_chunk := some a })

/-- The pointer-translation loop of `pool_resize` (lines 221-227): walk
the old free list (read from the old block) while the stored next pointer of the current node is not `NULL`; rewrite the corresponding slot of the
new array to the translated next pointer.  `offNext` carries the local
variable `off_next`, which starts out uninitialized (`none`) and is
assigned on every loop iteration.  `fuel` bounds the walk; exhausting it
models the non-termination of the C loop on a cyclic list. -/
def translateLoop (oldMem : List Cell) (csz oldBlk newBlk : Nat) :
    List Cell → Addr → Option Nat → Nat → Option (List Cell × Option Nat)
  | _, _, _, 0 => none
  | newMem, cur, offNext, fuel + 1 =>
    match memRead oldMem csz oldBlk cur with
    | none => none
    | some none => some (newMem, offNext)
    | some (some nxt) =>
      if nxt.1 = oldBlk then
        match memWrite newMem csz newBlk (newBlk, cur.2) (Word.next (some (newBlk, nxt.2))) with
        | none => none
        | some newMem2 => translateLoop oldMem csz oldBlk newBlk newMem2 nxt (some nxt.2) fuel
      else none

/-- Embedding of `pool_resize` (lines 193-239).  `allocOk` says whether the
`pool_ext_alloc` call for the new array succeeds.  Mirrors the source:
size checks first, then allocation, `memcpy` of
`pool_sz * chunk_sz` bytes, linking of the suffix chunks, and either
installing the suffix as the whole free list (old list empty) or
translating the old list and appending the first suffix chunk at the
offset held by `off_next` — which is still uninitialized (`none`) when
the translation loop body ran zero times.  Note the source never updates
`pool->pool_sz`.  A `NULL` pool is dereferenced unconditionally
(`none`). -/
def pool_resize (allocOk : Bool) (pool : Option Pool) (new_pool_sz : Nat) :
    Option (Bool × Option Pool) :=
  match pool with
  | none => none
  | some p =>
    if new_pool_sz < p.pool_sz then some (false, some p)
    else if new_pool_sz = p.pool_sz then some (true, some p)
    else if allocOk = false then some (false, some p)
    else if p.mem.length < p.pool_sz then none
    else
      let newBlk := p.chunk_arr + 1
      let mem2 := p.mem.take p.pool_sz ++ linkChunks newBlk p.pool_sz new_pool_sz p.chunk_sz
      let first_new : Addr := (newBlk, p.pool_sz * p.chunk_sz)
      match p.free_chunk with
      | none =>
        some (true, some
          { free_chunk := some first_new
            chunk_arr := newBlk
            mem := mem2
            pool_sz := p.pool_sz
            chunk_sz := p.chunk_sz })
      | some head =>
        match translateLoop p.mem p.chunk_sz p.chunk_arr newBlk mem2 head none
            (p.mem.length + 1) with
        | none => none
        | some (_, none) => none
        | some (mem3, some offn) =>
          match memWrite mem3 p.chunk_sz newBlk (newBlk, offn) (Word.next (some first_new)) with
          | none => none
          | some mem4 =>
            some (true, some
              { free_chunk := some (newBlk, head.2)
                chunk_arr := newBlk
                mem := mem4
                pool_sz := p.pool_sz
                chunk_sz := p.chunk_sz })

/-- Run `pool_alloc` `n` times, collecting the returned pointers and the
final pool. -/
def allocSeq : Option Pool → Nat → Option (List (Option Addr) × Option Pool)
  | q, 0 => some ([], q)
  | q, n + 1 =>
    match pool_alloc q with
    | none => none
    | some (r, q2) =>
      match allocSeq q2 n with
      | none => none
      | some (rs, q3) => some (r :: rs, q3)

/-- One `pool_alloc` immediately followed by `pool_free` of the pointer
it returned (spec section 8: LIFO reuse scenario). -/
def allocFreeCycle (q : Option Pool) : Option (Option Addr × Option Pool) :=
  match pool_alloc q with
  | none => none
  | some (r, q2) =>
    match pool_free q2 r with
    | none => none
    | some q3 => some (r, q3)

/-- Repeat `allocFreeCycle` `n` times, collecting the returned pointers. -/
def cycleSeq : Option Pool → Nat → Option (List (Option Addr) × Option Pool)
  | q, 0 => some ([], q)
  | q, n + 1 =>
    match allocFreeCycle q with
    | none => none
    | some (r, q2) =>
      match cycleSeq q2 n with
      | none => none
      | some (rs, q3) => some (r :: rs, q3)

/-- Walk the free list from `a`, collecting the chunk indices visited,
with `fuel` bounding the number of steps.  `none` when the walk leaves
the readable chunks or does not reach the `NULL` sentinel within
`fuel` steps. -/
def walkFree (mem : List Cell) (csz blk : Nat) : Option Addr → Nat → Option (List Nat)
  | none, _ => some []
  | some _, 0 => none
  | some a, fuel + 1 =>
    match memRead mem csz blk a with
    | none => none
    | some nxt =>
      match walkFree mem csz blk nxt fuel with
      | none => none
      | some l => some (a.2 / csz :: l)

/-- No chunk index repeated. -/
def nodupb : List Nat → Bool
  | [] => true
  | x :: xs => !(xs.contains x) && nodupb xs

/-- The free-list invariant of spec section 3: walked from the head, the
free list visits each free chunk exactly once (no repetition, hence no
cycle) and terminates with the `NULL` sentinel.  A walk that repeats a
chunk re-enters the same successor chain and never terminates, so fuel
`mem.length + 1` is exhausted exactly on the violating lists. -/
def wfFreeList (p : Pool) : Bool :=
  match walkFree p.mem p.chunk_sz p.chunk_arr p.free_chunk (p.mem.length + 1) with
  | none => false
  | some l => nodupb l

/-- Pool states reachable from `pool_new` by `pool_alloc` calls,
`pool_free` of validly allocated, not yet freed pointers, and successful
`pool_resize` calls (the operations claim C4 quantifies over), together
with the multiset of currently allocated pointers. -/
inductive Reach : Pool → List Addr → Prop where
  | new : ∀ psz csz p, pool_new true true psz csz = some p → Reach p []
  | allocSome : ∀ p live a p2, Reach p live →
      pool_alloc (some p) = some (some a, some p2) → Reach p2 (a :: live)
  | allocNone : ∀ p live p2, Reach p live →
      pool_alloc (some p) = some (none, some p2) → Reach p2 live
  | free : ∀ p live a p2, Reach p live → a ∈ live →
      pool_free (some p) (some a) = some (some p2) → Reach p2 (live.erase a)
  | resize : ∀ ok p live m p2, Reach p live →
      pool_resize ok (some p) m = some (true, some p2) → Reach p2 live

/-- The pool state after `k` allocations from a fresh
`pool_new(pool_sz, chunk_sz)` pool: the head sits on chunk `k` (or is
exhausted when `k = pool_sz`) and the backing array still holds the
initial links. -/
def midPool (psz csz k : Nat) : Pool :=
  { free_chunk := if k < psz then some (0, k * csz) else none
    chunk_arr := 0
    mem := linkChunks 0 0 psz csz
    pool_sz := psz
    chunk_sz := csz }

/-- Fresh pool of 2 chunks of 8 bytes: the value of `pool_new 2 8`. -/
def pool2x8 : Pool :=
  ⟨some (0, 0), 0, [⟨Word.next (some (0, 8)), 0⟩, ⟨Word.next none, 0⟩], 2, 8⟩

/-- The same pool exhausted (both chunks allocated). -/
def pool2x8exh : Pool := { pool2x8 with free_chunk := none }

section Helpers

/-- Successful-path characterization of `pool_alloc`: a non-empty free
list returns the head and advances it to the stored next pointer. -/
theorem pool_alloc_head (p : Pool) (a : Addr) (nxt : Option Addr)
    (hfc : p.free_chunk = some a)
    (hr : memRead p.mem p.chunk_sz p.chunk_arr a = some nxt) :
    pool_alloc (some p) = some (some a, some { p with free_chunk := nxt }) := by
  simp [pool_alloc, hfc, hr]

/-- Exhausted-path characterization of `pool_alloc`. -/
theorem pool_alloc_empty (p : Pool) (hfc : p.free_chunk = none) :
    pool_alloc (some p) = some (none, some p) := by
  simp [pool_alloc, hfc]

/-- Successful-path characterization of `pool_free` on a valid chunk
address of the current backing array. -/
theorem pool_free_valid (p : Pool) (a : Addr) (c : Cell)
    (h1 : a.1 = p.chunk_arr) (h2 : a.2 % p.chunk_sz = 0)
    (h3 : p.mem[a.2 / p.chunk_sz]? = some c) :
    pool_free (some p) (some a) = some (some
      { p with mem := p.mem.set (a.2 / p.chunk_sz) ⟨Word.next p.free_chunk, c.rest⟩
               free_chunk := some a }) := by
  simp [pool_free, memWrite, h1, h2, h3]

end Helpers

/-- C2: `pool_alloc` returns `NULL` exactly when the free-list head is
the `NULL` sentinel (pool exhausted, a defined no-value result, the pool
untouched); otherwise it returns the current head address and sets the
head to the next pointer stored in the first pointer-sized bytes at that
address, leaving all other pool state unchanged. -/
theorem pool_alloc_spec (p : Pool) :
    (p.free_chunk = none → pool_alloc (some p) = some (none, some p)) ∧
    (∀ a nxt, p.free_chunk = some a →
      memRead p.mem p.chunk_sz p.chunk_arr a = some nxt →
      pool_alloc (some p) = some (some a, some { p with free_chunk := nxt })) :=
  ⟨fun h => pool_alloc_empty p h, fun a nxt ha hr => pool_alloc_head p a nxt ha hr⟩

/-- C2 witness: both cases at concrete pools — an exhausted 2-chunk pool
returns `NULL` unchanged, a fresh 2-chunk pool returns chunk 0 and
advances the head to chunk 1. -/
theorem pool_alloc_spec_witness :
    pool_alloc (some pool2x8exh) = some (none, some pool2x8exh) ∧
    pool_alloc (some pool2x8) =
      some (some (0, 0), some { pool2x8 with free_chunk := some (0, 8) }) :=
  ⟨(pool_alloc_spec pool2x8exh).1 rfl,
   (pool_alloc_spec pool2x8).2 (0, 0) (some (0, 8)) rfl (by decide)⟩

/-- C3: `pool_free` of a valid chunk pointer overwrites the first
pointer-sized bytes at that pointer with the current free-list head
(preserving the remaining chunk bytes) and then sets the head to the
pointer; `pool_free` with a `NULL` pointer is a no-op.  The validity
hypotheses (current block, chunk-aligned, in range) are the conditions
any pointer previously returned by `pool_alloc` and not yet freed
satisfies. -/
theorem pool_free_spec (p : Pool) :
    (pool_free (some p) none = some (some p)) ∧
    (∀ a c, a.1 = p.chunk_arr → a.2 % p.chunk_sz = 0 →
      p.mem[a.2 / p.chunk_sz]? = some c →
      pool_free (some p) (some a) = some (some
        { p with mem := p.mem.set (a.2 / p.chunk_sz) ⟨Word.next p.free_chunk, c.rest⟩
                 free_chunk := some a })) :=
  ⟨rfl, fun a c h1 h2 h3 => pool_free_valid p a c h1 h2 h3⟩

/-- C3 witness: freeing chunk 0 of the exhausted 2-chunk pool writes the
`NULL` head into its first bytes and makes it the new head. -/
theorem pool_free_spec_witness :
    pool_free (some pool2x8exh) (some (0, 0)) = some (some
      { pool2x8exh with
          mem := pool2x8exh.mem.set 0 ⟨Word.next none, 0⟩
          free_chunk := some (0, 0) }) :=
  (pool_free_spec pool2x8exh).2 (0, 0) ⟨Word.next (some (0, 8)), 0⟩ rfl rfl rfl

/-- C6: `pool_resize` is a success-no-op when the requested size equals
the current `pool_sz`, fails without mutation when it is smaller, and
fails without mutation when the allocation of the new array fails. -/
theorem pool_resize_error_cases (p : Pool) (m : Nat) :
    (m < p.pool_sz → ∀ ok, pool_resize ok (some p) m = some (false, some p)) ∧
    (m = p.pool_sz → ∀ ok, pool_resize ok (some p) m = some (true, some p)) ∧
    (p.pool_sz < m → pool_resize false (some p) m = some (false, some p)) := by
  refine ⟨fun h ok => ?_, fun h ok => ?_, fun h => ?_⟩
  · simp [pool_resize, h]
  · subst h
    simp [pool_resize, Nat.lt_irrefl]
  · have h1 : ¬ m < p.pool_sz := by omega
    have h2 : ¬ m = p.pool_sz := by omega
    simp [pool_resize, h1, h2]

/-- C6 witness: on the fresh 2-chunk pool, shrinking to 1 fails
unchanged, resizing to 2 succeeds unchanged, and growing to 3 with a
failing allocator fails unchanged. -/
theorem pool_resize_error_cases_witness :
    pool_resize true (some pool2x8) 1 = some (false, some pool2x8) ∧
    pool_resize true (some pool2x8) 2 = some (true, some pool2x8) ∧
    pool_resize false (some pool2x8) 3 = some (false, some pool2x8) :=
  ⟨(pool_resize_error_cases pool2x8 1).1 (by decide) true,
   (pool_resize_error_cases pool2x8 2).2.1 (by decide) true,
   (pool_resize_error_cases pool2x8 3).2.2 (by decide)⟩

/-- C9 counterexample: the claim says the default build rounds an
undersized `chunk_sz` up and accepts it, but `pool_new` (line 105)
rejects every `chunk_sz < sizeof(void*)` unconditionally — there is no
alignment rounding in the source.  Concretely, `pool_new(1, 1)` returns
`NULL` even though both backing allocations succeed. -/
theorem pool_new_small_chunk_rejected : pool_new true true 1 1 = none := by
  decide

/-- C9 amended: `pool_new` rejects every `chunk_sz` smaller than
`sizeof(void*)` regardless of build options, and an accepted `chunk_sz`
is stored as given, without any rounding. -/
theorem pool_new_chunk_size_requirement (psz csz : Nat) :
    (csz < ptrSize → pool_new true true psz csz = none) ∧
    (∀ p, pool_new true true psz csz = some p → ptrSize ≤ csz ∧ p.chunk_sz = csz) := by
  constructor
  · intro h
    simp [pool_new, h]
  · intro p hp
    by_cases h0 : psz = 0 ∨ csz < ptrSize
    · simp [pool_new, h0] at hp
    · have h2 : ¬ csz < ptrSize := fun hc => h0 (Or.inr hc)
      refine ⟨Nat.le_of_not_lt h2, ?_⟩
      simp [pool_new, h0] at hp
      rw [← hp]

/-- C9 amended witness: `pool_new(1, 2)` is rejected because `2` is
below the pointer size. -/
theorem pool_new_chunk_size_requirement_witness : pool_new true true 1 2 = none :=
  (pool_new_chunk_size_requirement 1 2).1 (by decide)

/-- C10: a `NULL` pool handle is tolerated by `pool_alloc` (returns
`NULL`) and by `pool_free` (no-op), while `pool_resize` dereferences it
unconditionally (undefined behavior, `none` in the embedding). -/
theorem null_pool_handling :
    pool_alloc none = some (none, none) ∧
    (∀ ptr, pool_free none ptr = some none) ∧
    (∀ ok m, pool_resize ok none m = none) :=
  ⟨rfl, fun _ => rfl, fun _ _ => rfl⟩

/-- The 2-chunk pool after one allocation: its free list is the single
chunk 1, whose stored next pointer is `NULL`. -/
def oneFreePool : Pool :=
  ⟨some (0, 8), 0, [⟨Word.next (some (0, 8)), 0⟩, ⟨Word.next none, 0⟩], 2, 8⟩

/-- C5: on a pool whose old free list has exactly one element, the
translation loop of `pool_resize` (lines 221-227) runs zero iterations,
so the subsequent statement `*(void**)(new_arr + off_next) =
first_new_chunk` (line 229) reads the local `off_next` while it is still
uninitialized — undefined behavior, `none` in the embedding.  The claim
requires the append-at-tail to work for a one-element old free list;
the code does not. -/
theorem pool_resize_singleton_bug :
    pool_alloc (pool_new true true 2 8) = some (some (0, 0), some oneFreePool) ∧
    pool_resize true (some oneFreePool) 3 = none := by
  decide

/-- The pool produced by growing the fresh 2-chunk pool to 3 chunks:
`pool_resize` succeeded but left `pool_sz` at 2. -/
def grownPool : Pool :=
  ⟨some (1, 0), 1,
   [⟨Word.next (some (1, 8)), 0⟩, ⟨Word.next (some (1, 16)), 0⟩, ⟨Word.next none, 0⟩],
   2, 8⟩

/-- C7: `pool_resize` never assigns `pool->pool_sz` (lines 193-239
contain no such store), so after successfully growing a 2-chunk pool to
3 chunks the capacity field still reads 2, and an immediately repeated
`pool_resize(pool, 3)` takes the growth path again instead of being a
success-no-op: it reallocates and relinks, returning a different pool. -/
theorem pool_resize_stale_capacity :
    pool_resize true (pool_new true true 2 8) 3 = some (true, some grownPool) ∧
    grownPool.pool_sz ≠ 3 ∧
    pool_resize true (some grownPool) 3 ≠ some (true, some grownPool) := by
  decide

/-- Intermediate states of the C4 counterexample run
`pool_new(1, 8); pool_alloc; pool_resize(3); pool_resize(4)`. -/
def cyc0 : Pool := ⟨some (0, 0), 0, [⟨Word.next none, 0⟩], 1, 8⟩

def cyc1 : Pool := ⟨none, 0, [⟨Word.next none, 0⟩], 1, 8⟩

def cyc2 : Pool :=
  ⟨some (1, 8), 1,
   [⟨Word.next none, 0⟩, ⟨Word.next (some (1, 16)), 0⟩, ⟨Word.next none, 0⟩], 1, 8⟩

def cyc3 : Pool :=
  ⟨some (2, 8), 2,
   [⟨Word.next none, 0⟩, ⟨Word.next (some (2, 16)), 0⟩, ⟨Word.next (some (2, 8)), 0⟩,
    ⟨Word.next none, 0⟩], 1, 8⟩

/-- C4: a state reachable by `pool_new(1, 8)`, one `pool_alloc`, and two
successful `pool_resize` calls (to 3, then 4 chunks) has a cyclic free
list — chunk 1 points to chunk 2 and chunk 2 back to chunk 1 — because
`pool_resize` never updates `pool_sz`, so the second resize computes its
"first new chunk" at the stale offset `1 * 8`, which is already the head
of the translated list, and appends it at the tail.  This refutes the
claimed invariant that every reachable free list is acyclic and
`NULL`-terminated. -/
theorem reachable_free_list_cycle :
    ∃ p live, Reach p live ∧ wfFreeList p = false := by
  refine ⟨cyc3, [(0, 0)], ?_, by decide⟩
  have h0 : Reach cyc0 [] := Reach.new 1 8 cyc0 (by decide)
  have h1 : Reach cyc1 [(0, 0)] := Reach.allocSome cyc0 [] (0, 0) cyc1 h0 (by decide)
  have h2 : Reach cyc2 [(0, 0)] := Reach.resize true cyc1 [(0, 0)] 3 cyc2 h1 (by decide)
  exact Reach.resize true cyc2 [(0, 0)] 4 cyc3 h2 (by decide)

section Helpers2

/-- Inversion of a successful `memWrite`: the address was a valid chunk
slot of the given block and only the word of that cell changed. -/
theorem memWrite_eq_some (mem : List Cell) (csz blk : Nat) (a : Addr) (w : Word)
    (mem2 : List Cell) (h : memWrite mem csz blk a w = some mem2) :
    a.1 = blk ∧ a.2 % csz = 0 ∧
      ∃ c, mem[a.2 / csz]? = some c ∧ mem2 = mem.set (a.2 / csz) ⟨w, c.rest⟩ := by
  unfold memWrite at h
  by_cases hg : a.1 = blk ∧ a.2 % csz = 0
  · rw [if_pos hg] at h
    cases hc : mem[a.2 / csz]? with
    | none => rw [hc] at h; cases h
    | some c =>
      rw [hc] at h
      exact ⟨hg.1, hg.2, c, rfl, (Option.some.inj h).symm⟩
  · rw [if_neg hg] at h
    cases h

/-- Inversion of a successful `pool_free` on a non-null pointer. -/
theorem pool_free_eq_some (p : Pool) (a : Addr) (p1 : Pool)
    (h : pool_free (some p) (some a) = some (some p1)) :
    ∃ mem2, memWrite p.mem p.chunk_sz p.chunk_arr a (Word.next p.free_chunk) = some mem2 ∧
      p1 = { p with mem := mem2, free_chunk := some a } := by
  have h2 : (match memWrite p.mem p.chunk_sz p.chunk_arr a (Word.next p.free_chunk) with
      | none => (none : Option (Option Pool))
      | some mem2 => some (some { p with mem := mem2, free_chunk := some a }))
      = some (some p1) := h
  cases hw : memWrite p.mem p.chunk_sz p.chunk_arr a (Word.next p.free_chunk) with
  | none =>
    rw [hw] at h2
    simp at h2
  | some mem2 =>
    rw [hw] at h2
    simp at h2
    exact ⟨mem2, rfl, h2.symm⟩

end Helpers2

/-- C8: immediately after `pool_free(pool, a)` of a pointer the write
through which is defined, the next `pool_alloc` returns exactly `a` and
restores the pre-free head; and on the singleton `pool_new(1, 8)` pool,
alloc followed immediately by free of the returned pointer, repeated any
number of times, returns the base chunk address every time. -/
theorem free_then_alloc_returns_same :
    (∀ p a p1, pool_free (some p) (some a) = some (some p1) →
      pool_alloc (some p1) = some (some a, some { p1 with free_chunk := p.free_chunk })) ∧
    (∀ n, cycleSeq (pool_new true true 1 8) n =
      some (List.replicate n (some ((0 : Nat), (0 : Nat))), pool_new true true 1 8)) := by
  constructor
  · intro p a p1 h
    obtain ⟨mem2, hw, hp1⟩ := pool_free_eq_some p a p1 h
    obtain ⟨hb, hal, c, hc, hm2⟩ := memWrite_eq_some _ _ _ _ _ _ hw
    have hlt : a.2 / p.chunk_sz < p.mem.length := by
      rcases List.getElem?_eq_some_iff.mp hc with ⟨hl, _⟩
      exact hl
    have hr : memRead p1.mem p1.chunk_sz p1.chunk_arr a = some p.free_chunk := by
      subst hp1
      subst hm2
      show memRead (p.mem.set (a.2 / p.chunk_sz) _) p.chunk_sz p.chunk_arr a = _
      unfold memRead
      rw [if_pos ⟨hb, hal⟩, List.getElem?_set_self hlt]
    have hfc : p1.free_chunk = some a := by
      subst hp1
      rfl
    exact pool_alloc_head p1 a p.free_chunk hfc hr
  · intro n
    induction n with
    | zero => rfl
    | succ n ih =>
      have hcy : allocFreeCycle (pool_new true true 1 8) =
          some (some ((0 : Nat), (0 : Nat)), pool_new true true 1 8) := by decide
      simp only [cycleSeq, hcy, ih, List.replicate_succ]

/-- The exhausted 2-chunk pool after `pool_free` of chunk 0. -/
def freedPool : Pool :=
  ⟨some (0, 0), 0, [⟨Word.next none, 0⟩, ⟨Word.next none, 0⟩], 2, 8⟩

/-- C8 witness: freeing chunk 0 of the exhausted 2-chunk pool and
allocating again returns chunk 0. -/
theorem free_then_alloc_returns_same_witness :
    pool_free (some pool2x8exh) (some (0, 0)) = some (some freedPool) ∧
    pool_alloc (some freedPool) =
      some (some (0, 0), some { freedPool with free_chunk := none }) :=
  ⟨by decide, free_then_alloc_returns_same.1 pool2x8exh (0, 0) freedPool (by decide)⟩

section Helpers3

/-- The cell `k` of a freshly linked array stores the address of chunk
`k + 1`, or `NULL` for the last chunk. -/
theorem linkChunks_getElem (psz csz k : Nat) (hk : k < psz) :
    (linkChunks 0 0 psz csz)[k]? =
      some ⟨Word.next (if k + 1 < psz then some (0, (k + 1) * csz) else none), 0⟩ := by
  unfold linkChunks
  rw [List.getElem?_map, List.getElem?_range (by simpa using hk)]
  simp

/-- One `pool_alloc` on the partially allocated fresh pool returns chunk
`k` and moves the head to chunk `k + 1` (or exhaustion). -/
theorem alloc_midPool (psz csz k : Nat) (hcsz : 0 < csz) (hk : k < psz) :
    pool_alloc (some (midPool psz csz k)) =
      some (some (0, k * csz), some (midPool psz csz (k + 1))) := by
  have hfc : (midPool psz csz k).free_chunk = some ((0 : Nat), k * csz) := by
    simp [midPool, hk]
  have hr : memRead (midPool psz csz k).mem (midPool psz csz k).chunk_sz
      (midPool psz csz k).chunk_arr ((0 : Nat), k * csz)
      = some (if k + 1 < psz then some ((0 : Nat), (k + 1) * csz) else none) := by
    show memRead (linkChunks 0 0 psz csz) csz 0 (0, k * csz) = _
    unfold memRead
    rw [if_pos ⟨rfl, Nat.mul_mod_left k csz⟩, Nat.mul_div_cancel k hcsz,
      linkChunks_getElem psz csz k hk]
  exact pool_alloc_head (midPool psz csz k) (0, k * csz) _ hfc hr

/-- Unfolding one step of `allocSeq`. -/
theorem allocSeq_succ (q : Option Pool) (n : Nat) (r : Option Addr) (q2 : Option Pool)
    (h : pool_alloc q = some (r, q2)) (rs : List (Option Addr)) (q3 : Option Pool)
    (h2 : allocSeq q2 n = some (rs, q3)) :
    allocSeq q (n + 1) = some (r :: rs, q3) := by
  simp [allocSeq, h, h2]

/-- Running `d + 1` allocations from the fresh pool with `d` chunks
still free yields the `d` remaining chunk addresses followed by one
`NULL`, ending exhausted. -/
theorem allocSeq_midPool (psz csz : Nat) (hcsz : 0 < csz) :
    ∀ d k, k + d = psz →
      allocSeq (some (midPool psz csz k)) (d + 1) =
        some (((List.range d).map fun t => some ((0 : Nat), (k + t) * csz)) ++ [none],
          some (midPool psz csz psz)) := by
  intro d
  induction d with
  | zero =>
    intro k hk
    have hk0 : k = psz := by omega
    subst hk0
    have he : pool_alloc (some (midPool k csz k)) = some (none, some (midPool k csz k)) :=
      pool_alloc_empty _ (by simp [midPool])
    simp [allocSeq, he]
  | succ d ih =>
    intro k hk
    have hk2 : k < psz := by omega
    have hstep := alloc_midPool psz csz k hcsz hk2
    have ihh := ih (k + 1) (by omega)
    have hl : (List.range (d + 1)).map (fun t => some ((0 : Nat), (k + t) * csz))
        = some ((0 : Nat), k * csz) ::
          (List.range d).map (fun t => some ((0 : Nat), (k + 1 + t) * csz)) := by
      rw [List.range_succ_eq_map, List.map_cons, List.map_map]
      have hf : ((fun t => some ((0 : Nat), (k + t) * csz)) ∘ Nat.succ)
          = fun t => some ((0 : Nat), (k + 1 + t) * csz) := by
        funext t
        have ht : k + Nat.succ t = k + 1 + t := by omega
        simp only [Function.comp_apply, ht]
      rw [hf, Nat.add_zero]
    rw [allocSeq_succ _ _ _ _ hstep _ _ ihh, hl]
    rfl

end Helpers3

/-- C1: for every `pool_sz > 0` and `chunk_sz >= sizeof(void*)`, when
both backing allocations succeed, the fresh pool yields exactly
`pool_sz` successful (non-null) `pool_alloc` calls and the
`(pool_sz + 1)`-th call returns `NULL`. -/
theorem fresh_pool_alloc_capacity (psz csz : Nat) (h1 : 0 < psz) (h2 : ptrSize ≤ csz) :
    ∃ rs q, allocSeq (pool_new true true psz csz) (psz + 1) = some (rs, q) ∧
      rs.length = psz + 1 ∧
      (∀ i, i < psz → ∃ a, rs[i]? = some (some a)) ∧
      rs[psz]? = some none := by
  have hp8 : ptrSize = 8 := rfl
  have hcsz : 0 < csz := by omega
  have hnew : pool_new true true psz csz = some (midPool psz csz 0) := by
    have hg : ¬ (psz = 0 ∨ csz < ptrSize) := by
      rw [not_or]
      exact ⟨by omega, by omega⟩
    unfold pool_new
    rw [if_neg hg, if_neg (by simp), if_neg (by simp)]
    unfold midPool
    rw [if_pos h1, Nat.zero_mul]
  have hrun := allocSeq_midPool psz csz hcsz psz 0 (by omega)
  rw [hnew]
  refine ⟨_, _, hrun, ?_, ?_, ?_⟩
  · simp
  · intro i hi
    refine ⟨((0 : Nat), (0 + i) * csz), ?_⟩
    rw [List.getElem?_append_left (by simpa using hi), List.getElem?_map,
      List.getElem?_range hi]
    rfl
  · rw [List.getElem?_append_right (by simp)]
    simp

/-- C1 witness: the fresh 2-chunk pool of 8-byte chunks yields two
successes and then `NULL`. -/
theorem fresh_pool_alloc_capacity_witness :
    ∃ rs q, allocSeq (pool_new true true 2 8) 3 = some (rs, q) ∧
      rs.length = 3 ∧
      (∀ i, i < 2 → ∃ a, rs[i]? = some (some a)) ∧
      rs[2]? = some none :=
  fresh_pool_alloc_capacity 2 8 (by decide) (by decide)

end LibPool
